import Mathlib

set_option maxRecDepth 100000
set_option maxHeartbeats 2000000

/-
Shallow embedding of the FCB1010 SysEx codec (src/main.rs).

Bytes are modelled as Nat; every u8 value produced by the Rust program is
below 256, and theorems carry that bound explicitly where it matters.
Rust panics (out-of-bounds slice or index) are modelled by Option: a
function returns none exactly where the Rust code would panic.
-/

namespace FCB

/-- Preset: one configuration slot (struct Preset, src/main.rs lines 16-23).
Fixed-size Rust arrays and tuples become Lean tuples. -/
structure Preset where
  program_changes : Nat × Nat × Nat × Nat × Nat
  control_changes : (Nat × Nat) × (Nat × Nat)
  expression_pedal_a : Nat × Nat × Nat
  expression_pedal_b : Nat × Nat × Nat
  note : Nat
deriving DecidableEq

namespace Preset

/-- Preset::new (lines 26-34): all-zero preset. -/
def new : Preset :=
  ⟨(0, 0, 0, 0, 0), ((0, 0), (0, 0)), (0, 0, 0), (0, 0, 0), 0⟩

/-- Preset::from_bytes (lines 36-44): reads the fixed 16-byte field order. -/
def from_bytes (bytes : List Nat) : Preset :=
  ⟨(bytes.getD 0 0, bytes.getD 1 0, bytes.getD 2 0, bytes.getD 3 0, bytes.getD 4 0),
   ((bytes.getD 5 0, bytes.getD 6 0), (bytes.getD 7 0, bytes.getD 8 0)),
   (bytes.getD 9 0, bytes.getD 10 0, bytes.getD 11 0),
   (bytes.getD 12 0, bytes.getD 13 0, bytes.getD 14 0),
   bytes.getD 15 0⟩

/-- Preset::to_bytes (lines 46-65): serializes to 16 bytes in fixed order. -/
def to_bytes (p : Preset) : List Nat :=
  [p.program_changes.1, p.program_changes.2.1, p.program_changes.2.2.1,
   p.program_changes.2.2.2.1, p.program_changes.2.2.2.2,
   p.control_changes.1.1, p.control_changes.1.2,
   p.control_changes.2.1, p.control_changes.2.2,
   p.expression_pedal_a.1, p.expression_pedal_a.2.1, p.expression_pedal_a.2.2,
   p.expression_pedal_b.1, p.expression_pedal_b.2.1, p.expression_pedal_b.2.2,
   p.note]

end Preset

/-- MidiError (lines 206-211). -/
inductive MidiError where
  | InvalidSysExStart
  | InvalidSysExEnd
  | InvalidDataLength
deriving DecidableEq

/-- SysExMessage (lines 68-80). The Rust arrays [Preset; 100] and [u8; 10]
become lists; the structural length invariants appear as hypotheses of the
theorems below. -/
structure SysExMessage where
  start_byte : Nat
  manufacturer_id : Nat × Nat × Nat
  global_channel : Nat
  device_id : Nat
  presets : List Preset
  global_channels : List Nat
  end_byte : Nat
  original_data : Option (List Nat)
deriving DecidableEq

/-- Default::default for SysExMessage (lines 82-95). -/
def SysExMessage.default : SysExMessage :=
  ⟨0xf0, (0x00, 0x20, 0x32), 0x00, 0x0c,
   List.replicate 100 Preset.new, List.replicate 10 0, 0xf7, none⟩

/-- Writes the bytes bs into buf starting at offset off, one List.set per
byte, mirroring the element-wise array stores of the Rust loops. -/
def setBytes : List Nat → Nat → List Nat → List Nat
  | buf, _, [] => buf
  | buf, off, b :: rest => setBytes (buf.set off b) (off + 1) rest

/-- Encode loop over presets (lines 113-118): preset i is written at offset
i * 16 of the payload buffer. -/
def writePresetList : List Nat → Nat → List Preset → List Nat
  | buf, _, [] => buf
  | buf, off, p :: rest => writePresetList (setBytes buf off p.to_bytes) (off + 16) rest

/-- MSB-collector byte of one chunk (lines 129-133): bit i of the result is
bit 7 of chunk byte i. -/
def msbByte : List Nat → Nat → Nat
  | [], _ => 0
  | b :: rest, i => ((b >>> 7) <<< i) ||| msbByte rest (i + 1)

/-- One iteration of the 8-bit to 7-bit loop (lines 128-135): an 8-byte
group, data[i] = chunk[i] &&& 0x7F for i below the chunk length, data[7] =
the MSB byte, remaining slots keep the zero initialisation of [0u8; 8]. -/
def transcodeChunk (chunk : List Nat) : List Nat :=
  (setBytes (List.replicate 8 0) 0 (chunk.map (· &&& 0x7F))).set 7 (msbByte chunk 0)

/-- The full 8-bit to 7-bit transcoding loop (lines 125-137): the payload is
consumed in chunks of at most 7 bytes and each chunk emits its 8-byte group. -/
def encode7 : List Nat → List Nat
  | b0 :: b1 :: b2 :: b3 :: b4 :: b5 :: b6 :: rest =>
      transcodeChunk [b0, b1, b2, b3, b4, b5, b6] ++ encode7 rest
  | [] => []
  | chunk => transcodeChunk chunk

/-- The patched_data buffer after the preset and global-channel writes
(lines 113-122): presets at offsets i * 16, global channels at 0x7e0 + i. -/
def fillPayload (m : SysExMessage) (buf : List Nat) : List Nat :=
  setBytes (writePresetList buf 0 m.presets) 0x7e0 m.global_channels

/-- SysExMessage::encode (lines 98-141). Returns none exactly where the Rust
code panics: slicing original_data needs at least 8 bytes, and every
element store into patched_data must be in bounds (the preset loop touches
offsets below 16 * presets.len(), the channel loop offsets 0x7e0 + i). -/
def SysExMessage.encode (m : SysExMessage) : Option (List Nat) :=
  let patched : Option (List Nat) :=
    match m.original_data with
    | some d => if 8 ≤ d.length then some ((d.drop 7).take (d.length - 8)) else none
    | none => some (List.replicate 0x7ea 0)
  match patched with
  | none => none
  | some buf =>
      if 16 * m.presets.length ≤ buf.length ∧
          (m.global_channels = [] ∨ 0x7e0 + m.global_channels.length ≤ buf.length) then
        some (m.start_byte :: m.manufacturer_id.1 :: m.manufacturer_id.2.1 ::
          m.manufacturer_id.2.2 :: m.global_channel :: m.device_id :: 0x0f ::
          (encode7 (fillPayload m buf) ++ [m.end_byte]))
      else none

/-- One group of the 7-bit to 8-bit reconstruction (lines 164-169): byte i
gets bit 7 from bit i of the MSB byte (group byte 7). -/
def decodeGroup (group : List Nat) : List Nat :=
  (List.range 7).map fun i =>
    group.getD i 0 ||| ((((group.getD 7 0) >>> i) &&& 0x01) <<< 7)

/-- The reconstruction loop (lines 163-171): full 8-byte groups are decoded,
trailing bytes that do not fill a group are discarded. -/
def decode7 : List Nat → List Nat
  | b0 :: b1 :: b2 :: b3 :: b4 :: b5 :: b6 :: b7 :: rest =>
      decodeGroup [b0, b1, b2, b3, b4, b5, b6, b7] ++ decode7 rest
  | _ => []

/-- Preset extraction loop (lines 176-187): consecutive 16-byte groups each
become one preset. -/
def collectPresets : List Nat → List Preset
  | b0 :: b1 :: b2 :: b3 :: b4 :: b5 :: b6 :: b7 :: b8 :: b9 :: b10 :: b11 :: b12 :: b13
      :: b14 :: b15 :: rest =>
      Preset.from_bytes [b0, b1, b2, b3, b4, b5, b6, b7, b8, b9, b10, b11, b12, b13, b14, b15]
        :: collectPresets rest
  | _ => []

/-- SysExMessage::decode (lines 143-203). Validation order: length, start
marker, end marker. The reconstruction scans data[7 .. len-1] in 8-byte
groups. none models the Rust panics at fixed_data[0..0x640] and
fixed_data[0x7e0..0x7ea] when the reconstructed payload is too short. -/
def SysExMessage.decode (data : List Nat) : Option (Except MidiError SysExMessage) :=
  if data.length < 6 then some (Except.error MidiError.InvalidDataLength)
  else if data.getD 0 0 ≠ 0xf0 then some (Except.error MidiError.InvalidSysExStart)
  else if data.getD (data.length - 1) 0 ≠ 0xf7 then some (Except.error MidiError.InvalidSysExEnd)
  else
    let fixed_data := decode7 ((data.drop 7).take (data.length - 8))
    if fixed_data.length < 0x640 then none
    else if fixed_data.length < 0x7ea then none
    else some (Except.ok
      { start_byte := 0xf0
        manufacturer_id := (data.getD 1 0, data.getD 2 0, data.getD 3 0)
        global_channel := data.getD 4 0
        device_id := data.getD 5 0
        presets := collectPresets (fixed_data.take 0x640)
        global_channels := (fixed_data.drop 0x7e0).take 10
        end_byte := 0xf7
        original_data := some data })

end FCB

namespace FCB

deriving instance DecidableEq for Except

theorem setBytes_length : ∀ (bs buf : List Nat) (off : Nat),
    (setBytes buf off bs).length = buf.length
  | [], _, _ => rfl
  | b :: t, buf, off => by
      rw [setBytes, setBytes_length t]
      simp

theorem writePresetList_length : ∀ (ps : List Preset) (buf : List Nat) (off : Nat),
    (writePresetList buf off ps).length = buf.length
  | [], _, _ => rfl
  | p :: t, buf, off => by
      rw [writePresetList, writePresetList_length t, setBytes_length]

theorem fillPayload_length (m : SysExMessage) (buf : List Nat) :
    (fillPayload m buf).length = buf.length := by
  rw [fillPayload, setBytes_length, writePresetList_length]

theorem setBytes_eq : ∀ (bs buf : List Nat) (off : Nat), off + bs.length ≤ buf.length →
    setBytes buf off bs = buf.take off ++ bs ++ buf.drop (off + bs.length)
  | [], buf, off, h => by
      simp [setBytes]
  | b :: t, buf, off, h => by
      have hbl : off + (t.length + 1) ≤ buf.length := by simpa using h
      have hlt : off < buf.length := by omega
      have hT : (buf.take off).length = off := by
        rw [List.length_take]; omega
      have e1 : List.take (off + 1) (buf.take off ++ b :: buf.drop (off + 1)) =
          buf.take off ++ [b] := by
        rw [List.take_append_eq_append_take, hT]
        congr 1
        · exact List.take_of_length_le (by omega)
        · have h1 : off + 1 - off = 1 := by omega
          rw [h1]
          rfl
      have e2 : List.drop (off + 1 + t.length) (buf.take off ++ b :: buf.drop (off + 1)) =
          buf.drop (off + (t.length + 1)) := by
        rw [List.drop_append_eq_append_drop]
        rw [List.drop_eq_nil_of_le (by omega)]
        have h2 : off + 1 + t.length - (buf.take off).length = t.length + 1 := by omega
        rw [h2]
        rw [List.nil_append, List.drop_succ_cons, List.drop_drop]
        congr 1
        omega
      rw [setBytes, setBytes_eq t (buf.set off b) (off + 1) (by simp; omega)]
      rw [List.set_eq_take_append_cons_drop, if_pos hlt, e1, e2]
      simp [List.append_assoc]

end FCB

namespace FCB

theorem to_bytes_length (p : Preset) : p.to_bytes.length = 16 := rfl

theorem from_bytes_to_bytes :
    ∀ p : Preset, Preset.from_bytes p.to_bytes = p
  | ⟨(_, _, _, _, _), ((_, _), (_, _)), (_, _, _), (_, _, _), _⟩ => rfl

theorem writePresetList_eq : ∀ (ps : List Preset) (buf : List Nat) (off : Nat),
    off + 16 * ps.length ≤ buf.length →
    writePresetList buf off ps =
      buf.take off ++ (ps.map Preset.to_bytes).flatten ++ buf.drop (off + 16 * ps.length)
  | [], buf, off, h => by
      simp [writePresetList]
  | p :: t, buf, off, h => by
      have hl : off + 16 * t.length + 16 ≤ buf.length := by
        simp [Nat.mul_add] at h
        omega
      have hsb : setBytes buf off p.to_bytes =
          buf.take off ++ p.to_bytes ++ buf.drop (off + 16) := by
        have hh := setBytes_eq p.to_bytes buf off (by rw [to_bytes_length]; omega)
        rwa [to_bytes_length] at hh
      have hsbl := setBytes_length p.to_bytes buf off
      have hTP : (buf.take off ++ p.to_bytes).length = off + 16 := by
        rw [List.length_append, List.length_take, to_bytes_length]
        omega
      have hW := writePresetList_eq t (setBytes buf off p.to_bytes) (off + 16)
        (by rw [hsbl]; omega)
      rw [writePresetList, hW, hsb]
      rw [List.take_left' hTP]
      have e2 : List.drop (off + 16 + 16 * t.length)
            (buf.take off ++ p.to_bytes ++ buf.drop (off + 16)) =
          buf.drop (off + 16 * (t.length + 1)) := by
        rw [List.drop_append_eq_append_drop, List.drop_eq_nil_of_le (by rw [hTP]; omega), hTP]
        have hsub : off + 16 + 16 * t.length - (off + 16) = 16 * t.length := by omega
        rw [hsub, List.nil_append, List.drop_drop]
        congr 1
        omega
      rw [e2]
      simp [List.append_assoc, Nat.mul_add]

end FCB

namespace FCB

theorem flatten_to_bytes_length : ∀ ps : List Preset,
    ((ps.map Preset.to_bytes).flatten).length = 16 * ps.length
  | [] => rfl
  | p :: t => by
      simp only [List.map_cons, List.flatten_cons, List.length_append, to_bytes_length,
        flatten_to_bytes_length t, List.length_cons]
      omega

/-- Shape of the payload buffer built by encode when original_data is none:
the 1600 preset bytes, a zero gap, then the 10 global channels at 0x7e0. -/
theorem fillPayload_shape (m : SysExMessage) (h100 : m.presets.length = 100)
    (h10 : m.global_channels.length = 10) :
    fillPayload m (List.replicate 0x7ea 0) =
      (m.presets.map Preset.to_bytes).flatten ++ List.replicate 0x1a0 0 ++ m.global_channels := by
  have hw := writePresetList_eq m.presets (List.replicate 0x7ea 0) 0
    (by rw [List.length_replicate, h100]; omega)
  rw [fillPayload, hw]
  simp only [List.take_zero, List.nil_append, Nat.zero_add, h100, List.drop_replicate]
  have hfl : ((m.presets.map Preset.to_bytes).flatten).length = 1600 := by
    rw [flatten_to_bytes_length, h100]
  have hlen : ((m.presets.map Preset.to_bytes).flatten ++ List.replicate (0x7ea - 16 * 100) 0).length
      = 0x7ea := by
    rw [List.length_append, hfl, List.length_replicate]
  have hsb := setBytes_eq m.global_channels
    ((m.presets.map Preset.to_bytes).flatten ++ List.replicate (0x7ea - 16 * 100) 0) 0x7e0
    (by rw [hlen, h10])
  rw [hsb, h10]
  rw [List.drop_eq_nil_of_le (by rw [hlen]), List.append_nil]
  have htake : List.take 0x7e0
      ((m.presets.map Preset.to_bytes).flatten ++ List.replicate (0x7ea - 16 * 100) 0) =
      (m.presets.map Preset.to_bytes).flatten ++ List.replicate 0x1a0 0 := by
    rw [List.take_append_eq_append_take, hfl]
    rw [List.take_of_length_le (by rw [hfl]; omega), List.take_replicate]
    norm_num
  rw [htake]

end FCB

namespace FCB

theorem encode7_eq : ∀ (p : List Nat), p ≠ [] →
    encode7 p = transcodeChunk (p.take 7) ++ encode7 (p.drop 7)
  | [], h => absurd rfl h
  | [_], _ => rfl
  | [_, _], _ => rfl
  | [_, _, _], _ => rfl
  | [_, _, _, _], _ => rfl
  | [_, _, _, _, _], _ => rfl
  | [_, _, _, _, _, _], _ => rfl
  | _ :: _ :: _ :: _ :: _ :: _ :: _ :: _, _ => rfl

theorem transcodeChunk_shape : ∀ (c : List Nat), c.length ≤ 7 →
    transcodeChunk c = c.map (· &&& 0x7F) ++ List.replicate (7 - c.length) 0 ++ [msbByte c 0]
  | [], _ => rfl
  | [_], _ => rfl
  | [_, _], _ => rfl
  | [_, _, _], _ => rfl
  | [_, _, _, _], _ => rfl
  | [_, _, _, _, _], _ => rfl
  | [_, _, _, _, _, _], _ => rfl
  | [_, _, _, _, _, _, _], _ => rfl
  | _ :: _ :: _ :: _ :: _ :: _ :: _ :: _ :: _, h => by
      simp at h

theorem transcodeChunk_length (c : List Nat) (h : c.length ≤ 7) :
    (transcodeChunk c).length = 8 := by
  rw [transcodeChunk_shape c h]
  simp
  omega

theorem encode7_length : ∀ (n : Nat) (p : List Nat), p.length ≤ n →
    (encode7 p).length = 8 * ((p.length + 6) / 7)
  | 0, p, h => by
      have : p = [] := List.eq_nil_of_length_eq_zero (by omega)
      subst this
      rfl
  | n + 1, p, h => by
      rcases eq_or_ne p [] with rfl | hne
      · rfl
      · have hp : 1 ≤ p.length := by
          rcases p with _ | ⟨a, t⟩
          · exact absurd rfl hne
          · simp
        rw [encode7_eq p hne, List.length_append,
          transcodeChunk_length _ (by rw [List.length_take]; omega),
          encode7_length n (p.drop 7) (by rw [List.length_drop]; omega),
          List.length_drop]
        omega

theorem decode7_append : ∀ (g : List Nat), g.length = 8 → ∀ (rest : List Nat),
    decode7 (g ++ rest) = decodeGroup g ++ decode7 rest := by
  intro g hg rest
  match g, hg with
  | [_, _, _, _, _, _, _, _], _ => rfl

theorem and127_lt (b : Nat) : b &&& 0x7F < 128 :=
  Nat.lt_succ_of_le Nat.and_le_right

theorem and127_eq_self : ∀ b : Nat, b < 128 → b &&& 0x7F = b := by decide

theorem shr7_eq_zero : ∀ b : Nat, b < 128 → b >>> 7 = 0 := by decide

theorem map_and127_eq_self : ∀ (c : List Nat), (∀ b ∈ c, b < 128) →
    c.map (· &&& 0x7F) = c
  | [], _ => rfl
  | b :: t, h => by
      rw [List.map_cons, and127_eq_self b (h b (by simp)),
        map_and127_eq_self t (fun x hx => h x (by simp [hx]))]

theorem msbByte_eq_zero : ∀ (c : List Nat) (k : Nat), (∀ b ∈ c, b < 128) →
    msbByte c k = 0
  | [], _, _ => rfl
  | b :: t, k, h => by
      rw [msbByte, shr7_eq_zero b (h b (by simp)), Nat.zero_shiftLeft,
        msbByte_eq_zero t (k + 1) (fun x hx => h x (by simp [hx])), Nat.zero_or]

theorem decodeGroup_pad : ∀ (M : List Nat), M.length = 7 → decodeGroup (M ++ [0]) = M := by
  intro M hM
  have hr : List.range 7 = [0, 1, 2, 3, 4, 5, 6] := rfl
  match M, hM with
  | [m0, m1, m2, m3, m4, m5, m6], _ =>
      simp [decodeGroup, hr]

theorem decodeGroup_transcodeChunk (c : List Nat) (hlen : c.length ≤ 7)
    (hmem : ∀ b ∈ c, b < 128) :
    decodeGroup (transcodeChunk c) = c ++ List.replicate (7 - c.length) 0 := by
  rw [transcodeChunk_shape c hlen, map_and127_eq_self c hmem, msbByte_eq_zero c 0 hmem]
  exact decodeGroup_pad _ (by simp; omega)

end FCB

namespace FCB
theorem decode7_encode7 : ∀ (n : Nat) (p : List Nat), p.length ≤ n → (∀ b ∈ p, b < 128) →
    ∃ k, decode7 (encode7 p) = p ++ List.replicate k 0
  | 0, p, h, _ => by
      have : p = [] := List.eq_nil_of_length_eq_zero (by omega)
      subst this
      exact ⟨0, rfl⟩
  | n + 1, p, h, hmem => by
      rcases eq_or_ne p [] with rfl | hne
      · exact ⟨0, rfl⟩
      · have hp : 1 ≤ p.length := by
          rcases p with _ | ⟨a, t⟩
          · exact absurd rfl hne
          · simp
        rw [encode7_eq p hne]
        have htk : (p.take 7).length ≤ 7 := by rw [List.length_take]; omega
        have htm : ∀ b ∈ p.take 7, b < 128 := fun b hb => hmem b (List.mem_of_mem_take hb)
        rw [decode7_append _ (transcodeChunk_length _ htk)]
        rw [decodeGroup_transcodeChunk _ htk htm]
        obtain ⟨k, hk⟩ := decode7_encode7 n (p.drop 7)
          (by rw [List.length_drop]; omega)
          (fun b hb => hmem b (List.mem_of_mem_drop hb))
        rw [hk]
        by_cases hle : p.length ≤ 7
        · rw [List.take_of_length_le hle, List.drop_eq_nil_of_le hle]
          refine ⟨7 - p.length + k, ?_⟩
          rw [List.nil_append, List.append_assoc, ← List.replicate_add]
        · have h7 : (p.take 7).length = 7 := by rw [List.length_take]; omega
          rw [h7, Nat.sub_self]
          refine ⟨k, ?_⟩
          rw [List.replicate_zero, List.append_nil, ← List.append_assoc, List.take_append_drop]
end FCB

namespace FCB

/-- Wire bytes produced by encode when original_data is none: 7 header
bytes, the transcoded fixed-size payload, the end byte. -/
def encOut (m : SysExMessage) : List Nat :=
  m.start_byte :: m.manufacturer_id.1 :: m.manufacturer_id.2.1 :: m.manufacturer_id.2.2 ::
    m.global_channel :: m.device_id :: 0x0f ::
    (encode7 (fillPayload m (List.replicate 0x7ea 0)) ++ [m.end_byte])

theorem encode_none_eq (m : SysExMessage) (horig : m.original_data = none)
    (h100 : m.presets.length = 100) (h10 : m.global_channels.length = 10) :
    m.encode = some (encOut m) := by
  rw [SysExMessage.encode, horig]
  simp only []
  rw [if_pos]
  · rfl
  · constructor
    · rw [h100, List.length_replicate]
      norm_num
    · right
      rw [h10, List.length_replicate]

theorem decode_ok (d : List Nat) (h6 : 6 ≤ d.length) (hs : d.getD 0 0 = 0xf0)
    (he : d.getD (d.length - 1) 0 = 0xf7)
    (hfx : 0x7ea ≤ (decode7 ((d.drop 7).take (d.length - 8))).length) :
    SysExMessage.decode d = some (Except.ok
      { start_byte := 0xf0
        manufacturer_id := (d.getD 1 0, d.getD 2 0, d.getD 3 0)
        global_channel := d.getD 4 0
        device_id := d.getD 5 0
        presets := collectPresets ((decode7 ((d.drop 7).take (d.length - 8))).take 0x640)
        global_channels := ((decode7 ((d.drop 7).take (d.length - 8))).drop 0x7e0).take 10
        end_byte := 0xf7
        original_data := some d }) := by
  rw [SysExMessage.decode]
  rw [if_neg (by omega), if_neg (fun hne => hne hs), if_neg (fun hne => hne he)]
  simp only
  rw [if_neg (by omega), if_neg (by omega)]

end FCB

namespace FCB

theorem collectPresets_flatten : ∀ ps : List Preset,
    collectPresets ((ps.map Preset.to_bytes).flatten) = ps
  | [] => rfl
  | p :: t => by
      rw [List.map_cons, List.flatten_cons]
      have h : collectPresets (p.to_bytes ++ (t.map Preset.to_bytes).flatten) =
          Preset.from_bytes p.to_bytes :: collectPresets ((t.map Preset.to_bytes).flatten) := rfl
      rw [h, from_bytes_to_bytes, collectPresets_flatten t]

/-- Core round-trip fact: encoding a bank with no retained original_data and
7-bit-clean payload fields and decoding the result reproduces all the
semantic fields of the bank. -/
theorem encode_then_decode (m : SysExMessage)
    (h100 : m.presets.length = 100) (h10 : m.global_channels.length = 10)
    (horig : m.original_data = none)
    (hstart : m.start_byte = 0xf0) (hend : m.end_byte = 0xf7)
    (hp : ∀ p ∈ m.presets, ∀ b ∈ p.to_bytes, b < 128)
    (hg : ∀ b ∈ m.global_channels, b < 128) :
    m.encode = some (encOut m) ∧
    SysExMessage.decode (encOut m) = some (Except.ok
      { start_byte := 0xf0
        manufacturer_id := m.manufacturer_id
        global_channel := m.global_channel
        device_id := m.device_id
        presets := m.presets
        global_channels := m.global_channels
        end_byte := 0xf7
        original_data := some (encOut m) }) := by
  refine ⟨encode_none_eq m horig h100 h10, ?_⟩
  have hP := fillPayload_shape m h100 h10
  set P := fillPayload m (List.replicate 0x7ea 0) with hPdef
  have hflat : ((m.presets.map Preset.to_bytes).flatten).length = 1600 := by
    rw [flatten_to_bytes_length, h100]
  have hPlen : P.length = 0x7ea := by
    rw [hPdef, fillPayload_length, List.length_replicate]
  have hPm : ∀ b ∈ P, b < 128 := by
    intro b hb
    rw [hP] at hb
    rcases List.mem_append.1 hb with hb1 | hbg
    · rcases List.mem_append.1 hb1 with hbf | hbz
      · obtain ⟨l, hl, hbl⟩ := List.mem_flatten.1 hbf
        obtain ⟨q, hq, rfl⟩ := List.mem_map.1 hl
        exact hp q hq b hbl
      · rw [List.eq_of_mem_replicate hbz]
        omega
    · exact hg b hbg
  have hWlen : (encode7 P).length = 2320 := by
    rw [encode7_length P.length P (le_refl _), hPlen]
  have hsplit : encOut m = (m.start_byte :: m.manufacturer_id.1 :: m.manufacturer_id.2.1 ::
      m.manufacturer_id.2.2 :: m.global_channel :: m.device_id :: 0x0f :: encode7 P) ++
      [m.end_byte] := rfl
  have hhdrlen : (m.start_byte :: m.manufacturer_id.1 :: m.manufacturer_id.2.1 ::
      m.manufacturer_id.2.2 :: m.global_channel :: m.device_id :: 0x0f ::
      encode7 P).length = 2327 := by
    simp only [List.length_cons, hWlen]
  have hlen : (encOut m).length = 2328 := by
    rw [hsplit, List.length_append, hhdrlen]
    rfl
  have hs : (encOut m).getD 0 0 = 0xf0 := by
    rw [encOut, List.getD_cons_zero, hstart]
  have he : (encOut m).getD ((encOut m).length - 1) 0 = 0xf7 := by
    rw [hlen, hsplit, List.getD_append_right _ _ _ _ (by rw [hhdrlen]), hhdrlen]
    exact hend
  have hdrop : (encOut m).drop 7 = encode7 P ++ [m.end_byte] := rfl
  have hregion : ((encOut m).drop 7).take ((encOut m).length - 8) = encode7 P := by
    rw [hdrop, hlen]
    exact List.take_left' hWlen
  obtain ⟨k, hk⟩ := decode7_encode7 P.length P (le_refl _) hPm
  have hfxlen : (decode7 (((encOut m).drop 7).take ((encOut m).length - 8))).length
      = 0x7ea + k := by
    rw [hregion, hk, List.length_append, List.length_replicate, hPlen]
  have hdec := decode_ok (encOut m) (by omega) hs he (by rw [hfxlen]; omega)
  rw [hdec]
  have hfix : decode7 (((encOut m).drop 7).take ((encOut m).length - 8)) =
      P ++ List.replicate k 0 := by rw [hregion, hk]
  have le2 : 1600 ≤ ((m.presets.map Preset.to_bytes).flatten ++ List.replicate 0x1a0 0).length := by
    rw [List.length_append, hflat, List.length_replicate]
    norm_num
  have hpres : collectPresets ((decode7 (((encOut m).drop 7).take
      ((encOut m).length - 8))).take 0x640) = m.presets := by
    rw [hfix, List.take_append_of_le_length (by rw [hPlen]; norm_num), hP]
    rw [List.take_append_of_le_length le2]
    rw [List.take_append_of_le_length (by rw [hflat])]
    rw [List.take_of_length_le (by rw [hflat])]
    exact collectPresets_flatten m.presets
  have hgc : ((decode7 (((encOut m).drop 7).take ((encOut m).length - 8))).drop 0x7e0).take 10 =
      m.global_channels := by
    rw [hfix, List.drop_append_of_le_length (by rw [hPlen]; norm_num), hP]
    have hfz : ((m.presets.map Preset.to_bytes).flatten ++ List.replicate 0x1a0 0).length
        = 0x7e0 := by
      rw [List.length_append, hflat, List.length_replicate]
    rw [List.drop_left' hfz]
    rw [List.take_append_of_le_length (by rw [h10])]
    exact List.take_of_length_le (by rw [h10])
  have hm1 : (encOut m).getD 1 0 = m.manufacturer_id.1 := rfl
  have hm2 : (encOut m).getD 2 0 = m.manufacturer_id.2.1 := rfl
  have hm3 : (encOut m).getD 3 0 = m.manufacturer_id.2.2 := rfl
  have hm4 : (encOut m).getD 4 0 = m.global_channel := rfl
  have hm5 : (encOut m).getD 5 0 = m.device_id := rfl
  rw [hpres, hgc, hm1, hm2, hm3, hm4, hm5]

end FCB

namespace FCB

theorem encode7_payload_length (m : SysExMessage) (buf : List Nat) :
    (encode7 (fillPayload m buf)).length = 8 * ((buf.length + 6) / 7) := by
  rw [encode7_length (fillPayload m buf).length _ (le_refl _), fillPayload_length]

theorem encOut_length (m : SysExMessage) : (encOut m).length = 2328 := by
  have hsplit : encOut m = (m.start_byte :: m.manufacturer_id.1 :: m.manufacturer_id.2.1 ::
      m.manufacturer_id.2.2 :: m.global_channel :: m.device_id :: 0x0f ::
      encode7 (fillPayload m (List.replicate 0x7ea 0))) ++ [m.end_byte] := rfl
  rw [hsplit, List.length_append]
  simp only [List.length_cons, encode7_payload_length, List.length_replicate]
  rfl

theorem encode_some_eq (m : SysExMessage) (d : List Nat) (horig : m.original_data = some d)
    (h8 : 8 ≤ d.length) (hg1 : 16 * m.presets.length ≤ d.length - 8)
    (hg2 : m.global_channels = [] ∨ 0x7e0 + m.global_channels.length ≤ d.length - 8) :
    m.encode = some (m.start_byte :: m.manufacturer_id.1 :: m.manufacturer_id.2.1 ::
      m.manufacturer_id.2.2 :: m.global_channel :: m.device_id :: 0x0f ::
      (encode7 (fillPayload m ((d.drop 7).take (d.length - 8))) ++ [m.end_byte])) := by
  have hbl : ((d.drop 7).take (d.length - 8)).length = d.length - 8 := by
    rw [List.length_take, List.length_drop]
    omega
  rw [SysExMessage.encode, horig]
  simp only
  rw [if_pos h8]
  simp only
  rw [if_pos ⟨by rw [hbl]; exact hg1, by
    rcases hg2 with hg2 | hg2
    · exact Or.inl hg2
    · exact Or.inr (by rw [hbl]; exact hg2)⟩]

theorem setBytes_mem : ∀ (bs buf : List Nat) (off x : Nat),
    x ∈ setBytes buf off bs → x ∈ buf ∨ x ∈ bs
  | [], _, _, _, h => Or.inl h
  | b :: t, buf, off, x, h => by
      rcases setBytes_mem t _ _ x h with hx | hx
      · rcases List.mem_or_eq_of_mem_set hx with h1 | rfl
        · exact Or.inl h1
        · exact Or.inr (by simp)
      · exact Or.inr (by simp [hx])

theorem writePresetList_mem : ∀ (ps : List Preset) (buf : List Nat) (off x : Nat),
    x ∈ writePresetList buf off ps → x ∈ buf ∨ ∃ p ∈ ps, x ∈ p.to_bytes
  | [], _, _, _, h => Or.inl h
  | p :: t, buf, off, x, h => by
      rcases writePresetList_mem t _ _ x h with hx | ⟨q, hq, hxq⟩
      · rcases setBytes_mem _ _ _ x hx with h1 | h2
        · exact Or.inl h1
        · exact Or.inr ⟨p, by simp, h2⟩
      · exact Or.inr ⟨q, by simp [hq], hxq⟩

theorem fillPayload_mem (m : SysExMessage) (buf : List Nat) (x : Nat)
    (h : x ∈ fillPayload m buf) :
    x ∈ buf ∨ (∃ p ∈ m.presets, x ∈ p.to_bytes) ∨ x ∈ m.global_channels := by
  rw [fillPayload] at h
  rcases setBytes_mem _ _ _ x h with hx | hx
  · rcases writePresetList_mem _ _ _ x hx with h1 | h2
    · exact Or.inl h1
    · exact Or.inr (Or.inl h2)
  · exact Or.inr (Or.inr hx)

theorem msbByte_lt : ∀ (c : List Nat) (k : Nat), (∀ b ∈ c, b < 256) →
    msbByte c k < 2 ^ (k + c.length)
  | [], k, _ => by
      rw [msbByte]
      exact Nat.pos_pow_of_pos _ (by omega)
  | b :: t, k, h => by
      rw [msbByte]
      have hlen : k + (b :: t).length = k + 1 + t.length := by simp; omega
      rw [hlen]
      apply Nat.or_lt_two_pow
      · have hb : b >>> 7 ≤ 1 := by
          rw [Nat.shiftRight_eq_div_pow]
          have hb2 := h b (by simp)
          have h128 : (2 : Nat) ^ 7 = 128 := by norm_num
          rw [h128]
          omega
        have h1 : (b >>> 7) <<< k ≤ 2 ^ k := by
          rw [Nat.shiftLeft_eq]
          calc (b >>> 7) * 2 ^ k ≤ 1 * 2 ^ k := Nat.mul_le_mul_right _ hb
          _ = 2 ^ k := by omega
        have h2 : (2 : Nat) ^ k < 2 ^ (k + 1 + t.length) :=
          Nat.pow_lt_pow_right (by omega) (by omega)
        omega
      · have := msbByte_lt t (k + 1) (fun x hx => h x (by simp [hx]))
        have heq : k + 1 + t.length = k + 1 + t.length := rfl
        omega

theorem transcodeChunk_all_lt (c : List Nat) (hlen : c.length ≤ 7)
    (hmem : ∀ b ∈ c, b < 256) : ∀ x ∈ transcodeChunk c, x < 128 := by
  intro x hx
  rw [transcodeChunk_shape c hlen] at hx
  rcases List.mem_append.1 hx with hx1 | hxm
  · rcases List.mem_append.1 hx1 with hxf | hxz
    · obtain ⟨b, _, rfl⟩ := List.mem_map.1 hxf
      exact and127_lt b
    · rw [List.eq_of_mem_replicate hxz]
      omega
  · have hxe : x = msbByte c 0 := by simpa using hxm
    subst hxe
    have := msbByte_lt c 0 hmem
    have hpow : (2 : Nat) ^ (0 + c.length) ≤ 2 ^ 7 :=
      Nat.pow_le_pow_right (by omega) (by omega)
    have h128 : (2 : Nat) ^ 7 = 128 := by norm_num
    omega

theorem encode7_all_lt : ∀ (n : Nat) (p : List Nat), p.length ≤ n → (∀ b ∈ p, b < 256) →
    ∀ x ∈ encode7 p, x < 128
  | 0, p, h, _ => by
      have : p = [] := List.eq_nil_of_length_eq_zero (by omega)
      subst this
      intro x hx
      simp [encode7] at hx
  | n + 1, p, h, hmem => by
      intro x hx
      rcases eq_or_ne p [] with rfl | hne
      · simp [encode7] at hx
      · rw [encode7_eq p hne] at hx
        have hp : 1 ≤ p.length := by
          rcases p with _ | ⟨a, t⟩
          · exact absurd rfl hne
          · simp
        rcases List.mem_append.1 hx with hx1 | hx2
        · exact transcodeChunk_all_lt (p.take 7) (by rw [List.length_take]; omega)
            (fun b hb => hmem b (List.mem_of_mem_take hb)) x hx1
        · exact encode7_all_lt n (p.drop 7) (by rw [List.length_drop]; omega)
            (fun b hb => hmem b (List.mem_of_mem_drop hb)) x hx2

end FCB

namespace FCB

/-- Bank used to witness the default-encode path: the all-zero default
message of the application. -/
def msgDefault : SysExMessage :=
  { start_byte := 0xf0
    manufacturer_id := (0x00, 0x20, 0x32)
    global_channel := 0x00
    device_id := 0x0c
    presets := List.replicate 100 Preset.new
    global_channels := List.replicate 10 0
    end_byte := 0xf7
    original_data := some (encOut SysExMessage.default) }

/-- Bank with distinctive global channels, used to exhibit the payload
offset at which encode places them. -/
def bankG : SysExMessage :=
  { SysExMessage.default with global_channels := [1, 2, 3, 4, 5, 6, 7, 8, 9, 10] }

theorem default_roundtrip :
    SysExMessage.default.encode = some (encOut SysExMessage.default) ∧
    SysExMessage.decode (encOut SysExMessage.default) = some (Except.ok msgDefault) := by
  have h := encode_then_decode SysExMessage.default rfl rfl rfl rfl rfl
    (by
      intro p hp2 b hb
      rw [show p = Preset.new from List.eq_of_mem_replicate hp2] at hb
      simp [Preset.to_bytes, Preset.new] at hb
      omega)
    (by
      intro b hb
      rw [List.eq_of_mem_replicate hb]
      omega)
  exact h

attribute [irreducible] encOut

end FCB

namespace FCB

/-- Claim C1: for every Bank whose structural invariants hold (100 presets,
10 global channels, framing constants at their invariant values 0xF0/0xF7),
whose original_data is none, and all of whose byte fields are in 0-127,
decode(encode(bank)) succeeds and the resulting Bank agrees with the
original on presets, global_channels, manufacturer_id, global_channel and
device_id. -/
theorem C1_roundtrip (m : SysExMessage)
    (h100 : m.presets.length = 100) (h10 : m.global_channels.length = 10)
    (horig : m.original_data = none)
    (hstart : m.start_byte = 0xf0) (hend : m.end_byte = 0xf7)
    (_hman1 : m.manufacturer_id.1 ≤ 127) (_hman2 : m.manufacturer_id.2.1 ≤ 127)
    (_hman3 : m.manufacturer_id.2.2 ≤ 127)
    (_hgc : m.global_channel ≤ 127) (_hdid : m.device_id ≤ 127)
    (hp : ∀ p ∈ m.presets, ∀ b ∈ p.to_bytes, b ≤ 127)
    (hg : ∀ b ∈ m.global_channels, b ≤ 127) :
    ∃ out m2, m.encode = some out ∧ SysExMessage.decode out = some (Except.ok m2) ∧
      m2.presets = m.presets ∧ m2.global_channels = m.global_channels ∧
      m2.manufacturer_id = m.manufacturer_id ∧ m2.global_channel = m.global_channel ∧
      m2.device_id = m.device_id := by
  obtain ⟨henc, hdec⟩ := encode_then_decode m h100 h10 horig hstart hend
    (fun p hp2 b hb => Nat.lt_succ_of_le (hp p hp2 b hb))
    (fun b hb => Nat.lt_succ_of_le (hg b hb))
  exact ⟨encOut m, _, henc, hdec, rfl, rfl, rfl, rfl, rfl⟩

/-- Witness for C1 at the all-zero default bank. -/
theorem C1_roundtrip_witness :
    ∃ out m2, SysExMessage.default.encode = some out ∧
      SysExMessage.decode out = some (Except.ok m2) ∧
      m2.presets = SysExMessage.default.presets ∧
      m2.global_channels = SysExMessage.default.global_channels ∧
      m2.manufacturer_id = SysExMessage.default.manufacturer_id ∧
      m2.global_channel = SysExMessage.default.global_channel ∧
      m2.device_id = SysExMessage.default.device_id :=
  C1_roundtrip SysExMessage.default rfl rfl rfl rfl rfl (by decide) (by decide)
    (by decide) (by decide) (by decide)
    (by
      intro p hp2 b hb
      rw [show p = Preset.new from List.eq_of_mem_replicate hp2] at hb
      simp [Preset.to_bytes, Preset.new] at hb
      omega)
    (by
      intro b hb
      rw [List.eq_of_mem_replicate hb]
      omega)

/-- Claim C2 (code_bug direction): a correctly framed 6-byte buffer passes
all three validation checks, yet the reconstructed payload is empty and the
Rust slice fixed_data[0..0x640] panics; in the embedding decode returns
none, the panic marker, rather than a populated Bank or one of the three
typed failures. -/
theorem C2_decode_panics_on_short_framed_buffer :
    SysExMessage.decode [0xf0, 0x00, 0x00, 0x00, 0x00, 0xf7] = none := rfl

/-- Counterexample for C3: the final 3-byte chunk [1,2,3] is emitted as a
full 8-byte group with zero padding, not as 3 data bytes plus the MSB
byte. -/
theorem C3_short_chunk_zero_padded :
    encode7 [1, 2, 3] = [1, 2, 3, 0, 0, 0, 0, 0] ∧
    (encode7 [1, 2, 3]).length = 8 ∧ (encode7 [1, 2, 3]).length ≠ 3 + 1 := by
  refine ⟨rfl, rfl, ?_⟩
  intro h
  rw [show (encode7 [1, 2, 3]).length = 8 from rfl] at h
  omega

/-- Claim C3 (amended): when the final chunk of the payload has
chunk_len < 7 input bytes, the emitted group is still 8 bytes long:
the chunk_len low-bit data bytes, then 7 - chunk_len zero bytes (the
missing input positions are zero-padded by the [0u8; 8] initialisation),
then the MSB-collector byte. -/
theorem C3_trailing_group (c : List Nat) (hne : c ≠ []) (hlt : c.length < 7) :
    encode7 c = c.map (· &&& 0x7F) ++ List.replicate (7 - c.length) 0 ++ [msbByte c 0] ∧
    (encode7 c).length = 8 := by
  have hsh : encode7 c = transcodeChunk c := by
    rw [encode7_eq c hne, List.take_of_length_le (by omega),
      List.drop_eq_nil_of_le (by omega)]
    rw [show encode7 [] = ([] : List Nat) from rfl, List.append_nil]
  rw [hsh, transcodeChunk_shape c (by omega)]
  refine ⟨rfl, ?_⟩
  simp
  omega

/-- Witness for C3 at the chunk [1,2,3]. -/
theorem C3_trailing_group_witness :
    encode7 [1, 2, 3] = [1, 2, 3].map (· &&& 0x7F) ++ List.replicate (7 - 3) 0 ++
      [msbByte [1, 2, 3] 0] ∧ (encode7 [1, 2, 3]).length = 8 :=
  C3_trailing_group [1, 2, 3] (by simp) (by simp)

/-- Counterexample for C6: a 3-byte buffer whose first byte is not 0xF0 is
rejected with the invalid-length failure, not the invalid-start failure,
because the length check runs first. -/
theorem C6_length_check_first :
    SysExMessage.decode [1, 2, 3] = some (Except.error MidiError.InvalidDataLength) ∧
    SysExMessage.decode [1, 2, 3] ≠ some (Except.error MidiError.InvalidSysExStart) := by
  refine ⟨rfl, ?_⟩
  intro h
  rw [show SysExMessage.decode [1, 2, 3] =
    some (Except.error MidiError.InvalidDataLength) from rfl] at h
  simp at h

/-- Claim C6 (amended): decode checks the length first, then the start
marker, then the end marker: buffers shorter than 6 bytes fail with
invalid length; buffers of length at least 6 whose first byte is not 0xF0
fail with invalid start marker; buffers of length at least 6 with first
byte 0xF0 and last byte not 0xF7 fail with invalid end marker. -/
theorem C6_framing :
    (∀ d : List Nat, d.length < 6 →
        SysExMessage.decode d = some (Except.error MidiError.InvalidDataLength)) ∧
    (∀ d : List Nat, 6 ≤ d.length → d.getD 0 0 ≠ 0xf0 →
        SysExMessage.decode d = some (Except.error MidiError.InvalidSysExStart)) ∧
    (∀ d : List Nat, 6 ≤ d.length → d.getD 0 0 = 0xf0 → d.getD (d.length - 1) 0 ≠ 0xf7 →
        SysExMessage.decode d = some (Except.error MidiError.InvalidSysExEnd)) := by
  refine ⟨fun d hd => ?_, fun d hd hs => ?_, fun d hd hs he => ?_⟩
  · rw [SysExMessage.decode, if_pos hd]
  · rw [SysExMessage.decode, if_neg (by omega), if_pos hs]
  · rw [SysExMessage.decode, if_neg (by omega), if_neg (fun hne => hne hs), if_pos he]

/-- Witness for C6 at three concrete buffers. -/
theorem C6_framing_witness :
    SysExMessage.decode [1, 2, 3, 4, 5] = some (Except.error MidiError.InvalidDataLength) ∧
    SysExMessage.decode [0, 0, 0, 0, 0, 0] = some (Except.error MidiError.InvalidSysExStart) ∧
    SysExMessage.decode [0xf0, 0, 0, 0, 0, 0] = some (Except.error MidiError.InvalidSysExEnd) :=
  ⟨C6_framing.1 [1, 2, 3, 4, 5] (by norm_num),
   C6_framing.2.1 [0, 0, 0, 0, 0, 0] (by norm_num) (by norm_num),
   C6_framing.2.2 [0xf0, 0, 0, 0, 0, 0] (by norm_num) rfl (by norm_num)⟩

/-- Claim C7: transcoding the 7-byte chunk [0x80,0x01,0xFF,0x00,0x7F,0x81,0x02]
yields the 8-byte group whose MSB-collector byte is 0x25 (bits 0, 2 and 5)
and whose first 7 bytes are the inputs with bit 7 cleared. -/
theorem C7_bit_packing :
    transcodeChunk [0x80, 0x01, 0xFF, 0x00, 0x7F, 0x81, 0x02] =
      [0x00, 0x01, 0x7F, 0x00, 0x7F, 0x01, 0x02, 0x25] ∧
    (transcodeChunk [0x80, 0x01, 0xFF, 0x00, 0x7F, 0x81, 0x02]).getD 7 0 = 0x25 ∧
    (∀ i < 7, (transcodeChunk [0x80, 0x01, 0xFF, 0x00, 0x7F, 0x81, 0x02]).getD i 0 =
      ([0x80, 0x01, 0xFF, 0x00, 0x7F, 0x81, 0x02].getD i 0) &&& 0x7F) := by
  refine ⟨rfl, rfl, ?_⟩
  decide

/-- Claim C8: to_bytes of the given preset is the fixed-order 16-byte array
and from_bytes of that array reproduces the preset. -/
theorem C8_preset_layout :
    (Preset.to_bytes ⟨(1, 2, 3, 4, 5), ((10, 20), (30, 40)), (1, 2, 3), (4, 5, 6), 7⟩ =
      [1, 2, 3, 4, 5, 10, 20, 30, 40, 1, 2, 3, 4, 5, 6, 7]) ∧
    (Preset.from_bytes [1, 2, 3, 4, 5, 10, 20, 30, 40, 1, 2, 3, 4, 5, 6, 7] =
      ⟨(1, 2, 3, 4, 5), ((10, 20), (30, 40)), (1, 2, 3), (4, 5, 6), 7⟩) :=
  ⟨rfl, rfl⟩

/-- Claim C10: for every Bank with the structural slot counts and no
retained original_data, encode succeeds and returns exactly
7 + 290 * 8 + 1 = 2328 bytes: the 7 header bytes, 290 transcoded groups of
8 bytes covering the 0x7ea-byte payload, and the end byte. -/
theorem C10_encode_length (m : SysExMessage) (horig : m.original_data = none)
    (h100 : m.presets.length = 100) (h10 : m.global_channels.length = 10) :
    ∃ out, m.encode = some out ∧ out.length = 2328 ∧ out.length = 7 + 290 * 8 + 1 ∧
      (encode7 (fillPayload m (List.replicate 0x7ea 0))).length = 290 * 8 := by
  refine ⟨encOut m, encode_none_eq m horig h100 h10, encOut_length m, ?_, ?_⟩
  · rw [encOut_length]
  · rw [encode7_payload_length, List.length_replicate]

/-- Witness for C10 at the default bank. -/
theorem C10_encode_length_witness :
    ∃ out, SysExMessage.default.encode = some out ∧ out.length = 2328 ∧
      out.length = 7 + 290 * 8 + 1 ∧
      (encode7 (fillPayload SysExMessage.default (List.replicate 0x7ea 0))).length = 290 * 8 :=
  C10_encode_length SysExMessage.default rfl rfl rfl

end FCB

namespace FCB

theorem decode_ok_channels (d : List Nat) (msg : SysExMessage)
    (hd : SysExMessage.decode d = some (Except.ok msg)) :
    msg.global_channels = ((decode7 ((d.drop 7).take (d.length - 8))).drop 0x7e0).take 10 := by
  rw [SysExMessage.decode] at hd
  by_cases h1 : d.length < 6
  · rw [if_pos h1] at hd
    simp at hd
  · rw [if_neg h1] at hd
    by_cases h2 : d.getD 0 0 ≠ 0xf0
    · rw [if_pos h2] at hd
      simp at hd
    · rw [if_neg h2] at hd
      by_cases h3 : d.getD (d.length - 1) 0 ≠ 0xf7
      · rw [if_pos h3] at hd
        simp at hd
      · rw [if_neg h3] at hd
        simp only at hd
        by_cases h4 : (decode7 ((d.drop 7).take (d.length - 8))).length < 0x640
        · rw [if_pos h4] at hd
          exact Option.noConfusion hd
        · rw [if_neg h4] at hd
          by_cases h5 : (decode7 ((d.drop 7).take (d.length - 8))).length < 0x7ea
          · rw [if_pos h5] at hd
            exact Option.noConfusion hd
          · rw [if_neg h5] at hd
            have h6 := Except.ok.inj (Option.some.inj hd)
            rw [← h6]

/-- Counterexample for C5: in the payload built by encode for a bank whose
global channels are [1..10], the 10 bytes at offset 100 * 16 = 1600 are all
zero, not the global channels; the channels sit at offset 0x7e0 = 2016. -/
theorem C5_offset_not_1600 :
    ((fillPayload bankG (List.replicate 0x7ea 0)).drop (100 * 16)).take 10 ≠
      bankG.global_channels ∧
    ((fillPayload bankG (List.replicate 0x7ea 0)).drop (100 * 16)).take 10 =
      List.replicate 10 0 ∧
    ((fillPayload bankG (List.replicate 0x7ea 0)).drop 0x7e0).take 10 =
      bankG.global_channels := by
  have hsh := fillPayload_shape bankG rfl rfl
  have hflat : ((bankG.presets.map Preset.to_bytes).flatten).length = 1600 := by
    rw [flatten_to_bytes_length]
    rfl
  have hmid : ((fillPayload bankG (List.replicate 0x7ea 0)).drop (100 * 16)).take 10 =
      List.replicate 10 0 := by
    rw [hsh, show (100 * 16) = 1600 from by norm_num]
    rw [List.drop_append_of_le_length
      (by rw [List.length_append, hflat, List.length_replicate]; norm_num)]
    rw [List.drop_append_of_le_length (le_of_eq hflat.symm)]
    rw [List.drop_of_length_le (le_of_eq hflat), List.nil_append]
    rw [List.take_append_of_le_length (by rw [List.length_replicate]; norm_num)]
    rw [List.take_replicate]
    norm_num
  refine ⟨?_, hmid, ?_⟩
  · rw [hmid]
    decide
  · rw [hsh]
    have hfz : ((bankG.presets.map Preset.to_bytes).flatten ++
        List.replicate 0x1a0 0).length = 0x7e0 := by
      rw [List.length_append, hflat, List.length_replicate]
    rw [List.drop_left' hfz]
    exact List.take_of_length_le (by rfl)

/-- Claim C5 (amended): the 10 global-channel bytes live at the fixed
payload offset 0x7e0 = 2016, not at 1600: encode writes them there, and a
successful decode copies the reconstructed bytes at 0x7e0..0x7ea into
global_channels. -/
theorem C5_global_channel_offset (m : SysExMessage)
    (h100 : m.presets.length = 100) (h10 : m.global_channels.length = 10)
    (d : List Nat) (msg : SysExMessage)
    (hd : SysExMessage.decode d = some (Except.ok msg)) :
    ((fillPayload m (List.replicate 0x7ea 0)).drop 0x7e0).take 10 = m.global_channels ∧
    msg.global_channels =
      ((decode7 ((d.drop 7).take (d.length - 8))).drop 0x7e0).take 10 := by
  constructor
  · rw [fillPayload_shape m h100 h10]
    have hfz : ((m.presets.map Preset.to_bytes).flatten ++
        List.replicate 0x1a0 0).length = 0x7e0 := by
      rw [List.length_append, flatten_to_bytes_length, h100, List.length_replicate]
    rw [List.drop_left' hfz]
    exact List.take_of_length_le (le_of_eq h10)
  · exact decode_ok_channels d msg hd

/-- Witness for C5: the bank with channels [1..10] on the encode side and
the decoded default capture on the decode side. -/
theorem C5_global_channel_offset_witness :
    ((fillPayload bankG (List.replicate 0x7ea 0)).drop 0x7e0).take 10 =
      bankG.global_channels ∧
    msgDefault.global_channels =
      ((decode7 (((encOut SysExMessage.default).drop 7).take
        ((encOut SysExMessage.default).length - 8))).drop 0x7e0).take 10 :=
  C5_global_channel_offset bankG rfl rfl (encOut SysExMessage.default) msgDefault
    default_roundtrip.2

theorem encode_some_out_length (m : SysExMessage) (buf : List Nat) (hb : buf.length = 2320) :
    (m.start_byte :: m.manufacturer_id.1 :: m.manufacturer_id.2.1 ::
      m.manufacturer_id.2.2 :: m.global_channel :: m.device_id :: 0x0f ::
      (encode7 (fillPayload m buf) ++ [m.end_byte])).length = 2664 := by
  simp only [List.length_cons, List.length_append, encode7_payload_length, hb,
    List.length_singleton]
  norm_num

/-- Claim C4 (code_bug direction): decoding the captured default message
succeeds and retains the capture, but re-encoding the decoded bank slices
the raw 7-bit wire bytes of the capture and transcodes them again,
producing 2664 bytes instead of the 2328-byte original: the output is
never byte-identical to the capture. -/
theorem C4_reencode_differs :
    SysExMessage.decode (encOut SysExMessage.default) = some (Except.ok msgDefault) ∧
    msgDefault.original_data = some (encOut SysExMessage.default) ∧
    (encOut SysExMessage.default).length = 2328 ∧
    ∃ out2, msgDefault.encode = some out2 ∧ out2.length = 2664 ∧
      out2 ≠ encOut SysExMessage.default := by
  refine ⟨default_roundtrip.2, rfl, encOut_length _, ?_⟩
  have hlen : (encOut SysExMessage.default).length = 2328 := encOut_length _
  have hbuf : ((((encOut SysExMessage.default).drop 7).take
      ((encOut SysExMessage.default).length - 8))).length = 2320 := by
    rw [List.length_take, List.length_drop, hlen]
    omega
  have henc := encode_some_eq msgDefault (encOut SysExMessage.default) rfl
    (by rw [hlen]; omega)
    (by rw [hlen]; norm_num [msgDefault])
    (Or.inr (by rw [hlen]; norm_num [msgDefault]))
  have hL := encode_some_out_length msgDefault _ hbuf
  refine ⟨_, henc, hL, ?_⟩
  intro heq
  have h2 := congrArg List.length heq
  rw [hL] at h2
  rw [hlen] at h2
  exact absurd h2 (by norm_num)

/-- Predicate stating that every byte field stored in the message is a
valid u8 value, as the Rust types guarantee. -/
def SysExMessage.wf256 (m : SysExMessage) : Prop :=
  m.start_byte < 256 ∧ m.manufacturer_id.1 < 256 ∧ m.manufacturer_id.2.1 < 256 ∧
  m.manufacturer_id.2.2 < 256 ∧ m.global_channel < 256 ∧ m.device_id < 256 ∧
  (∀ p ∈ m.presets, ∀ b ∈ p.to_bytes, b < 256) ∧ (∀ b ∈ m.global_channels, b < 256) ∧
  (∀ b ∈ m.original_data.getD [], b < 256) ∧ m.end_byte < 256

instance wf256Decidable (m : SysExMessage) : Decidable m.wf256 := by
  unfold SysExMessage.wf256
  infer_instance

theorem getD_append_body_lt (hdr body tail : List Nat) (hb : ∀ x ∈ body, x < 128) (i : Nat)
    (h7 : hdr.length ≤ i) (hlt : i < hdr.length + body.length) :
    ((hdr ++ body) ++ tail).getD i 0 < 128 := by
  rw [List.getD_append _ _ _ _ (by rw [List.length_append]; omega)]
  rw [List.getD_append_right _ _ _ _ h7]
  have hj : i - hdr.length < body.length := by omega
  have hmem : body.getD (i - hdr.length) 0 ∈ body := by
    rw [List.getD_eq_getElem?_getD, List.getElem?_eq_getElem hj]
    exact List.getElem_mem hj
  exact hb _ hmem

theorem encode_out_getD_lt (m : SysExMessage) (buf : List Nat)
    (hbuf : ∀ b ∈ buf, b < 256)
    (hp : ∀ p ∈ m.presets, ∀ b ∈ p.to_bytes, b < 256)
    (hg : ∀ b ∈ m.global_channels, b < 256) (i : Nat) (h7 : 7 ≤ i)
    (hlt : i + 1 < (m.start_byte :: m.manufacturer_id.1 :: m.manufacturer_id.2.1 ::
      m.manufacturer_id.2.2 :: m.global_channel :: m.device_id :: 0x0f ::
      (encode7 (fillPayload m buf) ++ [m.end_byte])).length) :
    (m.start_byte :: m.manufacturer_id.1 :: m.manufacturer_id.2.1 ::
      m.manufacturer_id.2.2 :: m.global_channel :: m.device_id :: 0x0f ::
      (encode7 (fillPayload m buf) ++ [m.end_byte])).getD i 0 < 128 := by
  have hpay : ∀ b ∈ fillPayload m buf, b < 256 := by
    intro b hb
    rcases fillPayload_mem m buf b hb with h1 | h2 | h3
    · exact hbuf b h1
    · obtain ⟨p, hp2, hbp⟩ := h2
      exact hp p hp2 b hbp
    · exact hg b h3
  have hbody : ∀ x ∈ encode7 (fillPayload m buf), x < 128 :=
    encode7_all_lt (fillPayload m buf).length _ (le_refl _) hpay
  have hsp : m.start_byte :: m.manufacturer_id.1 :: m.manufacturer_id.2.1 ::
      m.manufacturer_id.2.2 :: m.global_channel :: m.device_id :: 0x0f ::
      (encode7 (fillPayload m buf) ++ [m.end_byte]) =
      ([m.start_byte, m.manufacturer_id.1, m.manufacturer_id.2.1, m.manufacturer_id.2.2,
        m.global_channel, m.device_id, 0x0f] ++ encode7 (fillPayload m buf)) ++
        [m.end_byte] := by
    simp
  have hlenc : (m.start_byte :: m.manufacturer_id.1 :: m.manufacturer_id.2.1 ::
      m.manufacturer_id.2.2 :: m.global_channel :: m.device_id :: 0x0f ::
      (encode7 (fillPayload m buf) ++ [m.end_byte])).length =
      7 + ((encode7 (fillPayload m buf)).length + 1) := by
    simp only [List.length_cons, List.length_append, List.length_nil]
    omega
  rw [hlenc] at hlt
  rw [hsp]
  refine getD_append_body_lt _ _ _ hbody i ?_ ?_
  · exact h7
  · rw [show ([m.start_byte, m.manufacturer_id.1, m.manufacturer_id.2.1, m.manufacturer_id.2.2,
      m.global_channel, m.device_id, 0x0f] : List Nat).length = 7 from rfl]
    omega

/-- Claim C9: for every Bank (any u8 field values) for which encode
succeeds, every byte of the output strictly between the 7-byte header and
the final end byte has bit 7 clear. -/
theorem C9_payload_seven_bit (m : SysExMessage) (h : m.wf256) (out : List Nat)
    (hout : m.encode = some out) :
    ∀ i, 7 ≤ i → i + 1 < out.length → out.getD i 0 < 128 := by
  obtain ⟨hsb, hm1, hm2, hm3, hgc2, hdid, hp, hg, hod, heb⟩ := h
  intro i h7 hlt
  rw [SysExMessage.encode] at hout
  rcases horig : m.original_data with _ | d
  · rw [horig] at hout
    simp only at hout
    by_cases hc : 16 * m.presets.length ≤ (List.replicate 0x7ea (0 : Nat)).length ∧
        (m.global_channels = [] ∨
          0x7e0 + m.global_channels.length ≤ (List.replicate 0x7ea (0 : Nat)).length)
    · rw [if_pos hc] at hout
      obtain rfl := Option.some.inj hout
      exact encode_out_getD_lt m _ (fun b hb => by rw [List.eq_of_mem_replicate hb]; omega)
        hp hg i h7 hlt
    · rw [if_neg hc] at hout
      exact Option.noConfusion hout
  · rw [horig] at hout
    simp only at hout
    rw [horig] at hod
    simp only [Option.getD_some] at hod
    by_cases h8 : 8 ≤ d.length
    · rw [if_pos h8] at hout
      simp only at hout
      by_cases hc : 16 * m.presets.length ≤ ((d.drop 7).take (d.length - 8)).length ∧
          (m.global_channels = [] ∨
            0x7e0 + m.global_channels.length ≤ ((d.drop 7).take (d.length - 8)).length)
      · rw [if_pos hc] at hout
        obtain rfl := Option.some.inj hout
        exact encode_out_getD_lt m _
          (fun b hb => hod b (List.mem_of_mem_drop (List.mem_of_mem_take hb)))
          hp hg i h7 hlt
      · rw [if_neg hc] at hout
        exact Option.noConfusion hout
    · rw [if_neg h8] at hout
      simp only at hout
      exact Option.noConfusion hout

/-- Witness for C9 at the default bank and its encoded output. -/
theorem C9_payload_seven_bit_witness :
    SysExMessage.default.wf256 ∧
    (∀ i, 7 ≤ i → i + 1 < (encOut SysExMessage.default).length →
      (encOut SysExMessage.default).getD i 0 < 128) :=
  ⟨by decide, C9_payload_seven_bit SysExMessage.default (by decide)
    (encOut SysExMessage.default) default_roundtrip.1⟩

end FCB
